import Mathlib

/-!
Verification of the jsdiff-html diff engine (src/combined.js, src/seperated.js,
src/preview.js) via a shallow embedding in Lean 4.

External collaborators (the parse5 HTML parser and the jsdiff character-diff
primitive) are parameters of the embedded functions: `parse : String → Node`
and `dc : String → String → List DiffPart`.  Everything else is translated
from the JavaScript source.
-/

namespace JsdiffHtml

/-- Parsed document node, mirroring the parse5 node objects the engine
consumes.  `nodeName` is `"#document"`, `"#text"` or a tag name; `value` is
the text content (text nodes only); `attrs` is `none` when the JS object has
no `attrs` field (document and text nodes) and `some list` for elements;
`childNodes` is the ordered child list (empty for text nodes, which in JS
lack the field — the engine only ever reads it as `childNodes || []`). -/
inductive Node where
  | mk (nodeName : String) (value : String)
      (attrs : Option (List (String × String))) (childNodes : List Node)

def Node.nodeName : Node → String
  | .mk n _ _ _ => n

def Node.value : Node → String
  | .mk _ v _ _ => v

def Node.attrs : Node → Option (List (String × String))
  | .mk _ _ a _ => a

def Node.childNodes : Node → List Node
  | .mk _ _ _ c => c

/-- One segment returned by the external `Diff.diffChars` collaborator:
jsdiff marks each part with `added` / `removed` flags and carries its text
in `value`. -/
structure DiffPart where
  added : Bool
  removed : Bool
  value : String

/-- One normalized text segment as the engine re-tags it:
`{type: added|removed|unchanged, content}` (combined.js lines 66-69). -/
structure Seg where
  type : String
  content : String

/-- combined.js lines 66-69: re-tag one jsdiff part. -/
def segOf (q : DiffPart) : Seg :=
  ⟨if q.added then "added" else if q.removed then "removed" else "unchanged",
   q.value⟩

/-- One reported difference (combined.js pushes plain objects; the `kind`
field of the JS objects is recovered by `DiffItem.kind` below).  The `path`
of a `textDiff` is an `Option` because the flat-text entry point
(combined.js line 143) pushes a text difference without a `path` field.
`added`/`removed` carry an `Option Node` because the JS code stores
whichever side is present (`!oldNode ? newNode : oldNode`). -/
inductive DiffItem where
  | added (path : String) (node : Option Node)
  | removed (path : String) (node : Option Node)
  | changed (path : String) (oldTag newTag : String)
  | textDiff (path : Option String) (changes : List Seg)
  | attributeRemoved (path name oldValue : String)
  | attributeChanged (path name oldValue newValue : String)
  | attributeAdded (path name value : String)

/-- The `kind` tag combined.js attaches to every pushed difference. -/
def DiffItem.kind : DiffItem → String
  | .textDiff _ _ => "text"
  | _ => "structural"

/-- The `path` field of a difference (`none` only for the flat-text
difference, whose JS object has no path, i.e. `undefined`). -/
def DiffItem.dpath : DiffItem → Option String
  | .added p _ => some p
  | .removed p _ => some p
  | .changed p _ _ => some p
  | .textDiff p _ => p
  | .attributeRemoved p _ _ => some p
  | .attributeChanged p _ _ _ => some p
  | .attributeAdded p _ _ => some p

/-- The `name` field of an attribute difference. -/
def DiffItem.attrName : DiffItem → Option String
  | .attributeRemoved _ n _ => some n
  | .attributeChanged _ n _ _ => some n
  | .attributeAdded _ n _ => some n
  | _ => none

/-- Result of `diff` / `compareHTML` / `compareText` in combined.js. -/
structure DiffResult where
  changed : Bool
  differences : List DiffItem

/-- Result of the separated entry point (seperated.js compareHTML). -/
structure SepResult where
  changed : Bool
  structuralDifferences : List DiffItem
  textDifferences : List DiffItem

/-! ### String helpers: JS whitespace, trim, the HTML sniff regex and
whitespace normalization -/

/-- The character class of the JavaScript regexp `\s` (also the set removed
by `String.prototype.trim`). -/
def isJsSpace (c : Char) : Bool :=
  c = ' ' || c = '\t' || c = '\n' || c = '\r' ||
  c = Char.ofNat 0x0B || c = Char.ofNat 0x0C || c = Char.ofNat 0xA0 ||
  c = Char.ofNat 0x1680 || (0x2000 ≤ c.toNat && c.toNat ≤ 0x200A) ||
  c = Char.ofNat 0x2028 || c = Char.ofNat 0x2029 || c = Char.ofNat 0x202F ||
  c = Char.ofNat 0x205F || c = Char.ofNat 0x3000 || c = Char.ofNat 0xFEFF

/-- JavaScript `String.prototype.trim`. -/
def jsTrim (s : String) : String :=
  String.mk (((s.data.dropWhile isJsSpace).reverse.dropWhile isJsSpace).reverse)

def isAsciiLetter (c : Char) : Bool :=
  ('a' ≤ c && c ≤ 'z') || ('A' ≤ c && c ≤ 'Z')

/-- Scanner for the content-sniffing regexp `/<[a-z][\s\S]*>/i`
(combined.js line 155): a `<` immediately followed by an ASCII letter, with
a `>` anywhere later. -/
def htmlTestAux : List Char → Bool
  | '<' :: c :: rest =>
      if isAsciiLetter c then rest.contains '>' else htmlTestAux (c :: rest)
  | _ :: rest => htmlTestAux rest
  | [] => false

def htmlTest (s : String) : Bool :=
  htmlTestAux s.data

/-- One left-to-right pass of `html.replace(/>\s+</g, '><')`
(combined.js line 7).  Fueled so that the definition is structurally
recursive (and hence kernel-computable); fuel equal to the input length is
always sufficient because every step consumes at least one character. -/
def replaceGtWsLtF : Nat → List Char → List Char
  | 0, l => l
  | _ + 1, [] => []
  | fuel + 1, c :: rest =>
      if c = '>' then
        match rest.takeWhile isJsSpace, rest.drop (rest.takeWhile isJsSpace).length with
        | _ :: _, '<' :: rest2 => '>' :: '<' :: replaceGtWsLtF fuel rest2
        | _, _ => '>' :: replaceGtWsLtF fuel rest
      else c :: replaceGtWsLtF fuel rest

/-- combined.js lines 6-8: `html.replace(/>\s+</g, '><').trim()`. -/
def normalizeHtml (html : String) : String :=
  jsTrim (String.mk (replaceGtWsLtF html.data.length html.data))

/-- combined.js line 122: `path ? path + '/' + i : String(i)`. -/
def childPath (path : String) (i : Nat) : String :=
  if path = "" then Nat.repr i else path ++ "/" ++ Nat.repr i

/-! ### JS `Map` built from the attribute list -/

/-- `Map.prototype.set`: an existing key keeps its insertion position and
gets the new value; a fresh key is appended. -/
def mapSet (m : List (String × String)) (k v : String) :
    List (String × String) :=
  if m.any (fun e => e.1 = k) then
    m.map (fun e => if e.1 = k then (k, v) else e)
  else m ++ [(k, v)]

/-- `new Map(attrs.map(attr => [attr.name, attr.value]))`: insert the pairs
in list order. -/
def jsMap (l : List (String × String)) : List (String × String) :=
  l.foldl (fun m e => mapSet m e.1 e.2) []

/-- `Map.prototype.get` (`none` for a missing key; `has(k)` is equivalent to
`get(k) ≠ none` here because every stored value is a string). -/
def mapGet (m : List (String × String)) (k : String) : Option String :=
  (m.find? (fun e => e.1 = k)).map (fun e => e.2)

/-! ### Attribute comparison (combined.js lines 76-114) -/

/-- Lines 81-100: one loop iteration over an old-map entry.  `has(name)`
false gives `attributeRemoved`; otherwise a differing value gives
`attributeChanged` carrying old and new value. -/
def oldAttrStep (nA : List (String × String)) (path : String)
    (e : String × String) : Option DiffItem :=
  match mapGet nA e.1 with
  | none => some (.attributeRemoved path e.1 e.2)
  | some w => if w ≠ e.2 then some (.attributeChanged path e.1 e.2 w) else none

/-- Lines 103-113: one loop iteration over a new-map entry. -/
def newAttrStep (oA : List (String × String)) (path : String)
    (e : String × String) : Option DiffItem :=
  match mapGet oA e.1 with
  | none => some (.attributeAdded path e.1 e.2)
  | some _ => none

/-- Lines 76-114: the two loops push at most one difference per map entry,
old-map entries first. -/
def attrDiffs (path : String) (oldAttrs newAttrs : List (String × String)) :
    List DiffItem :=
  let oA := jsMap oldAttrs
  let nA := jsMap newAttrs
  oA.filterMap (oldAttrStep nA path) ++ nA.filterMap (newAttrStep oA path)

theorem sizeOf_node_list_pos (l : List Node) : 0 < sizeOf l := by
  cases l <;> simp_arith

/-! ### The recursive co-traversal (combined.js compareNodes, lines 35-130) -/

mutual

/-- combined.js lines 35-130.  A `none` argument is a missing side (JS
`undefined`): lines 36-44 report it and return without recursing.  For a
present pair: tag check (47-55), text check (58-73), attribute check
(76-114), then positional child recursion (117-129). -/
def compareNodes (dc : String → String → List DiffPart) :
    Option Node → Option Node → String → List DiffItem
  | none, newN, path => [DiffItem.added path newN]
  | some oldN, none, path => [DiffItem.removed path (some oldN)]
  | some (Node.mk onm ov oas ocs), some (Node.mk nnm nv nas ncs), path =>
      (if onm ≠ nnm ∧ onm ≠ "#text" then [DiffItem.changed path onm nnm]
       else [])
      ++ (if onm = "#text" ∧ nnm = "#text" then
            (if jsTrim ov ≠ jsTrim nv then
               [DiffItem.textDiff (some path)
                  ((dc (jsTrim ov) (jsTrim nv)).map segOf)]
             else [])
          else [])
      ++ (match oas, nas with
          | some oa, some na => attrDiffs path oa na
          | _, _ => [])
      ++ compareChildren dc ocs ncs path 0
termination_by o n => sizeOf o + sizeOf n
decreasing_by
  simp_wf
  omega

/-- combined.js lines 117-129: the loop `for i in 0..max(len old, len new)`
calling `compareNodes(oldChildren[i], newChildren[i], path/i)`. -/
def compareChildren (dc : String → String → List DiffPart) :
    List Node → List Node → String → Nat → List DiffItem
  | [], [], _, _ => []
  | o :: os, [], path, i =>
      compareNodes dc (some o) none (childPath path i)
        ++ compareChildren dc os [] path (i + 1)
  | [], n :: ns, path, i =>
      compareNodes dc none (some n) (childPath path i)
        ++ compareChildren dc [] ns path (i + 1)
  | o :: os, n :: ns, path, i =>
      compareNodes dc (some o) (some n) (childPath path i)
        ++ compareChildren dc os ns path (i + 1)
termination_by os ns => sizeOf os + sizeOf ns
decreasing_by
  all_goals simp_wf
  all_goals first
    | (have h9 := sizeOf_node_list_pos os; omega)
    | (have h9 := sizeOf_node_list_pos ns; omega)
    | omega

end

/-! ### Entry points (combined.js) -/

/-- combined.js lines 4-33. -/
def compareHTML (parse : String → Node)
    (dc : String → String → List DiffPart)
    (oldHtml newHtml : String) : DiffResult :=
  let o := normalizeHtml oldHtml
  let n := normalizeHtml newHtml
  if o = n then ⟨false, []⟩
  else
    let ds := compareNodes dc (some (parse o)) (some (parse n)) ""
    ⟨decide (0 < ds.length), ds⟩

/-- combined.js lines 132-151. -/
def compareText (dc : String → String → List DiffPart)
    (oldText newText : String) : DiffResult :=
  if oldText = newText then ⟨false, []⟩
  else
    let parts := dc oldText newText
    ⟨parts.any (fun q => q.added || q.removed),
     [DiffItem.textDiff none (parts.map segOf)]⟩

/-- combined.js lines 153-163: route on the HTML sniff. -/
def diff (parse : String → Node) (dc : String → String → List DiffPart)
    (oldContent newContent : String) : DiffResult :=
  if htmlTest oldContent || htmlTest newContent then
    compareHTML parse dc oldContent newContent
  else
    compareText dc oldContent newContent

/-- JS string coercion of a possibly-absent value, as performed by
`htmlRegex.test(x)` on a non-string (`String(null) = "null"`). -/
def jsStr : Option String → String
  | none => "null"
  | some s => s

/-- The `diff` entry point on possibly-absent (JS `null`) inputs.  A missing
side routed to `compareHTML` hits `null.replace` inside `normalizeHtml`
(combined.js line 7) and raises a `TypeError`; a missing side that reaches
`Diff.diffChars` (line 140) raises a `TypeError` inside the collaborator's
tokenizer.  `null === null` in `compareText` (line 133) succeeds, so a pair
of missing inputs returns the empty result. -/
def diffOpt (parse : String → Node) (dc : String → String → List DiffPart)
    (oldContent newContent : Option String) : Except String DiffResult :=
  if htmlTest (jsStr oldContent) || htmlTest (jsStr newContent) then
    match oldContent, newContent with
    | some a, some b => .ok (compareHTML parse dc a b)
    | _, _ => .error "TypeError: normalizeHtml called on a missing value"
  else
    match oldContent, newContent with
    | some a, some b => .ok (compareText dc a b)
    | none, none => .ok ⟨false, []⟩
    | _, _ => .error "TypeError: diffChars called on a missing value"

/-! ### The separated entry point (src/seperated.js) -/

mutual

/-- seperated.js lines 38-128: same traversal as combined.js but pushing
into two accumulators (`structuralDifferences`, `textDifferences`).  The
JS objects here carry no `kind` field and the text object's segment field
is named `differences` instead of `changes`; both shapes are represented by
the same `DiffItem` constructors. -/
def sepCompareNodes (dc : String → String → List DiffPart) :
    Option Node → Option Node → String → List DiffItem × List DiffItem
  | none, newN, path => ([DiffItem.added path newN], [])
  | some oldN, none, path => ([DiffItem.removed path (some oldN)], [])
  | some (Node.mk onm ov oas ocs), some (Node.mk nnm nv nas ncs), path =>
      let tagPart :=
        if onm ≠ nnm ∧ onm ≠ "#text" then [DiffItem.changed path onm nnm]
        else []
      let textPart :=
        if onm = "#text" ∧ nnm = "#text" then
          (if jsTrim ov ≠ jsTrim nv then
             [DiffItem.textDiff (some path)
                ((dc (jsTrim ov) (jsTrim nv)).map segOf)]
           else [])
        else []
      let attrPart :=
        match oas, nas with
        | some oa, some na => attrDiffs path oa na
        | _, _ => []
      let rest := sepCompareChildren dc ocs ncs path 0
      (tagPart ++ attrPart ++ rest.1, textPart ++ rest.2)
termination_by o n => sizeOf o + sizeOf n
decreasing_by
  simp_wf
  omega

/-- seperated.js lines 113-127: the positional child loop. -/
def sepCompareChildren (dc : String → String → List DiffPart) :
    List Node → List Node → String → Nat → List DiffItem × List DiffItem
  | [], [], _, _ => ([], [])
  | o :: os, [], path, i =>
      let h := sepCompareNodes dc (some o) none (childPath path i)
      let t := sepCompareChildren dc os [] path (i + 1)
      (h.1 ++ t.1, h.2 ++ t.2)
  | [], n :: ns, path, i =>
      let h := sepCompareNodes dc none (some n) (childPath path i)
      let t := sepCompareChildren dc [] ns path (i + 1)
      (h.1 ++ t.1, h.2 ++ t.2)
  | o :: os, n :: ns, path, i =>
      let h := sepCompareNodes dc (some o) (some n) (childPath path i)
      let t := sepCompareChildren dc os ns path (i + 1)
      (h.1 ++ t.1, h.2 ++ t.2)
termination_by os ns => sizeOf os + sizeOf ns
decreasing_by
  all_goals simp_wf
  all_goals first
    | (have h9 := sizeOf_node_list_pos os; omega)
    | (have h9 := sizeOf_node_list_pos ns; omega)
    | omega

end

/-- seperated.js lines 4-36. -/
def sepCompareHTML (parse : String → Node)
    (dc : String → String → List DiffPart)
    (oldHtml newHtml : String) : SepResult :=
  let o := normalizeHtml oldHtml
  let n := normalizeHtml newHtml
  if o = n then ⟨false, [], []⟩
  else
    let r := sepCompareNodes dc (some (parse o)) (some (parse n)) ""
    ⟨decide (0 < r.1.length) || decide (0 < r.2.length), r.1, r.2⟩

/-! ### The preview renderer (src/preview.js) -/

/-- preview.js lines 238-245: five chained global replaces. -/
def replaceChar (c : Char) (r : List Char) : List Char → List Char
  | [] => []
  | x :: xs =>
      if x = c then r ++ replaceChar c r xs else x :: replaceChar c r xs

def quoteChar : Char := Char.ofNat 34

def aposChar : Char := Char.ofNat 39

def ampEnt : List Char := ['&', 'a', 'm', 'p', ';']

def ltEnt : List Char := ['&', 'l', 't', ';']

def gtEnt : List Char := ['&', 'g', 't', ';']

def quotEnt : List Char := ['&', 'q', 'u', 'o', 't', ';']

def numEnt : List Char := ['&', '#', '0', '3', '9', ';']

/-- preview.js escapeHtml: `&` then `<` then `>` then `"` then `'`. -/
def escapeHtml (text : String) : String :=
  String.mk (replaceChar aposChar numEnt
    (replaceChar quoteChar quotEnt
      (replaceChar '>' gtEnt
        (replaceChar '<' ltEnt
          (replaceChar '&' ampEnt text.data)))))

/-- Per-character view of the five chained replaces of escapeHtml: the
replacement block produced for one input character. -/
def escChar (c : Char) : List Char :=
  if c = '&' then ampEnt
  else if c = '<' then ltEnt
  else if c = '>' then gtEnt
  else if c = quoteChar then quotEnt
  else if c = aposChar then numEnt
  else [c]

/-- Checks that every ampersand in the list starts one of the five entity
encodings escapeHtml produces. -/
def entityOk : List Char → Bool
  | [] => true
  | c :: rest =>
      if c = '&' then
        (List.isPrefixOf ['a', 'm', 'p', ';'] rest
          || List.isPrefixOf ['l', 't', ';'] rest
          || List.isPrefixOf ['g', 't', ';'] rest
          || List.isPrefixOf ['q', 'u', 'o', 't', ';'] rest
          || List.isPrefixOf ['#', '0', '3', '9', ';'] rest)
        && entityOk rest
      else entityOk rest

/-- preview.js line 176: `new Map(result.differences.map(d => [d.path, d]))`
keyed by path — a later difference at the same path overwrites an earlier
one, so lookup finds the last matching entry. -/
def diffFor (differences : List DiffItem) (p : Option String) :
    Option DiffItem :=
  differences.reverse.find? (fun d => d.dpath == p)

/-- preview.js line 198: serialize the (new-side) attributes verbatim. -/
def attrsString : Option (List (String × String)) → String
  | none => ""
  | some l =>
      String.join (l.map (fun a => " " ++ a.1 ++ "=\"" ++ a.2 ++ "\""))

/-- preview.js lines 182-184: one annotated text segment. -/
def renderSeg (s : Seg) : String :=
  "<span class=\"diff-" ++ s.type ++ "\">" ++ escapeHtml s.content
    ++ "</span>"

mutual

/-- preview.js lines 178-217.  Text node: substitute the diff segments (or
escape the raw value); document node: render the children; element node:
opening tag with verbatim attributes, children, closing tag.  The
structural-annotation pushes in the source (lines 204, 208) are commented
out, so `structuralChanges` is always empty and is not represented. -/
def renderNode (dm : List DiffItem) : Node → String → String
  | Node.mk nm v ats cns, path =>
      if nm = "#text" then
        match diffFor dm (some path) with
        | some (DiffItem.textDiff _ changes) =>
            String.join (changes.map renderSeg)
        | _ => escapeHtml v
      else if nm = "#document" || nm = "#document-fragment" then
        renderChildren dm cns path 0
      else
        "<" ++ nm ++ attrsString ats ++ ">" ++ renderChildren dm cns path 0
          ++ "</" ++ nm ++ ">"
termination_by n _ => sizeOf n
decreasing_by
  all_goals simp_wf
  all_goals omega

/-- preview.js lines 190-192 and 212-214: children are rendered at the same
`path/i` addresses the differ used. -/
def renderChildren (dm : List DiffItem) : List Node → String → Nat → String
  | [], _, _ => ""
  | c :: cs, path, i =>
      renderNode dm c (childPath path i) ++ renderChildren dm cs path (i + 1)
termination_by cs _ _ => sizeOf cs
decreasing_by
  all_goals simp_wf
  all_goals omega

end

/-- preview.js lines 165-220: short-circuit on an unchanged result, else
re-walk the parsed new content. -/
def renderDiffPreview (parse : String → Node)
    (dc : String → String → List DiffPart)
    (oldContent newContent : String) : String :=
  let result := diff parse dc oldContent newContent
  if !result.changed then
    "<div class=\"diff-preview\">" ++ oldContent ++ "</div>"
  else
    "<div class=\"diff-preview\">"
      ++ renderNode result.differences (parse newContent) "" ++ "</div>"

/-! ### Concrete instances of the external collaborators, used by the
closed witness and counterexample theorems -/

/-- A minimal valid character-diff collaborator: equal strings yield one
unchanged segment, different strings a removal of the old text followed by
an insertion of the new text. -/
def dc0 : String → String → List DiffPart := fun a b =>
  if a = b then [⟨false, false, a⟩] else [⟨false, true, a⟩, ⟨true, false, b⟩]

def textNode (s : String) : Node := Node.mk "#text" s none []

def elemNode (tag : String) (attrs : List (String × String))
    (cs : List Node) : Node := Node.mk tag "" (some attrs) cs

def docNode (cs : List Node) : Node := Node.mk "#document" "" none cs

def headNode : Node := elemNode "head" [] []

/-- parse5.parse("x"): document → html → (head, body → text "x"). -/
def docX : Node :=
  docNode [elemNode "html" [] [headNode, elemNode "body" [] [textNode "x"]]]

/-- parse5.parse("&lt;div&gt;&lt;/div&gt;" as markup): document → html →
(head, body → div). -/
def docDiv : Node :=
  docNode
    [elemNode "html" []
       [headNode, elemNode "body" [] [elemNode "div" [] []]]]

/-- A concrete instance of the external parse5 collaborator, agreeing with
the real parser on the two inputs the counterexamples use. -/
def parse0 : String → Node := fun s =>
  if s = "<div></div>" then docDiv else docX

/-- The collaborator contract of `Diff.diffChars` (spec section 6 and the
text-diff completeness property of section 8): the segments reconstruct the
old string (unchanged plus removed parts) and the new string (unchanged
plus added parts). -/
def dcFaithful (dc : String → String → List DiffPart) : Prop :=
  ∀ a b : String,
    String.join (((dc a b).filter (fun q => !q.added)).map (fun q => q.value)) = a
    ∧ String.join (((dc a b).filter (fun q => !q.removed)).map (fun q => q.value)) = b

/-- Invariant of `compareNodes`: each reported difference has a path at
least as long as the call path. -/
def NodePathProp (dc : String → String → List DiffPart)
    (o n : Option Node) (q : String) : Prop :=
  ∀ d ∈ compareNodes dc o n q, ∃ s, d.dpath = some s ∧ q.length ≤ s.length

/-- Invariant of `compareChildren`: each reported difference has a path
strictly longer than the parent path. -/
def ChildPathProp (dc : String → String → List DiffPart)
    (os ns : List Node) (q : String) (i : Nat) : Prop :=
  ∀ d ∈ compareChildren dc os ns q i,
    ∃ s, d.dpath = some s ∧ q.length < s.length

/-- The separated traversal's two lists are the kind-partition of the
combined traversal's list, node case. -/
def SepNodeProp (dc : String → String → List DiffPart)
    (o n : Option Node) (q : String) : Prop :=
  sepCompareNodes dc o n q
    = ((compareNodes dc o n q).filter (fun d => d.kind == "structural"),
       (compareNodes dc o n q).filter (fun d => d.kind == "text"))

/-- The separated traversal's two lists are the kind-partition of the
combined traversal's list, child-loop case. -/
def SepChildProp (dc : String → String → List DiffPart)
    (os ns : List Node) (q : String) (i : Nat) : Prop :=
  sepCompareChildren dc os ns q i
    = ((compareChildren dc os ns q i).filter
         (fun d => d.kind == "structural"),
       (compareChildren dc os ns q i).filter (fun d => d.kind == "text"))

/-! ### Claim theorems -/

theorem dc0_faithful : dcFaithful dc0 := by
  intro a b
  by_cases h : a = b <;> simp [dc0, h, String.join]


/-- Claim C4: diff(X, X) returns an unchanged empty result for every content
string X, HTML or plain text; and two HTML inputs that are equal after
whitespace normalization also yield the unchanged empty result. -/
theorem c4_idempotence (parse : String → Node)
    (dc : String → String → List DiffPart) (X a b : String)
    (h1 : (htmlTest a || htmlTest b) = true)
    (h2 : normalizeHtml a = normalizeHtml b) :
    diff parse dc X X = ⟨false, []⟩ ∧ diff parse dc a b = ⟨false, []⟩ := by
  constructor
  · unfold diff
    split
    · unfold compareHTML
      simp
    · unfold compareText
      simp
  · unfold diff
    rw [h1]
    unfold compareHTML
    simp [h2]

/-- Witness for C4 at concrete inputs: two HTML strings differing only in
inter-tag whitespace. -/
theorem c4_idempotence_witness :
    diff parse0 dc0 "hello" "hello" = ⟨false, []⟩
    ∧ diff parse0 dc0 "<p> <b></b></p>" "<p><b></b></p>" = ⟨false, []⟩ :=
  c4_idempotence parse0 dc0 "hello" "<p> <b></b></p>" "<p><b></b></p>"
    (by decide) (by decide)

/-- Claim C5: when exactly one side of a co-traversed pair is absent, the
traversal emits exactly one structural `added` (new side present) or
`removed` (old side present) difference at that path, carrying the present
side's whole node, and does not recurse into that position. -/
theorem c5_presence_atomicity (dc : String → String → List DiffPart)
    (n o : Node) (p : String) :
    compareNodes dc none (some n) p = [DiffItem.added p (some n)]
    ∧ compareNodes dc (some o) none p = [DiffItem.removed p (some o)]
    ∧ (DiffItem.added p (some n)).kind = "structural"
    ∧ (DiffItem.removed p (some o)).kind = "structural" := by
  refine ⟨?_, ?_, rfl, rfl⟩ <;> simp [compareNodes]

/-- Claim C8 (amended status: confirmed): on a pair the differ reports
unchanged, the preview renderer returns the old content verbatim inside the
preview container, with no annotation markup. -/
theorem c8_unchanged_preview (parse : String → Node)
    (dc : String → String → List DiffPart) (o n : String)
    (h : (diff parse dc o n).changed = false) :
    renderDiffPreview parse dc o n
      = "<div class=\"diff-preview\">" ++ o ++ "</div>" := by
  unfold renderDiffPreview
  simp [h]

/-- Witness for C8 at a concrete unchanged pair. -/
theorem c8_unchanged_preview_witness :
    renderDiffPreview parse0 dc0 "hi" "hi"
      = "<div class=\"diff-preview\">" ++ "hi" ++ "</div>" :=
  c8_unchanged_preview parse0 dc0 "hi" "hi" (by decide)

/-- Counterexample to claim C3 as stated: a missing (null) old input paired
with an HTML new input raises a TypeError (combined.js line 7 calls
`oldHtml.replace` on null) instead of returning a result. -/
theorem c3_totality_counterexample :
    diffOpt parse0 dc0 none (some "<div></div>")
      = .error "TypeError: normalizeHtml called on a missing value" := rfl

/-- Claim C3 as amended: diff is total over pairs of strings; a pair of
missing inputs and a pair of empty strings both yield the unchanged empty
result.  (Only mixing a missing input with a present one can raise.) -/
theorem c3_totality_amended (parse : String → Node)
    (dc : String → String → List DiffPart) (a b : String) :
    diffOpt parse dc (some a) (some b) = .ok (diff parse dc a b)
    ∧ diffOpt parse dc none none = .ok ⟨false, []⟩
    ∧ diff parse dc "" "" = ⟨false, []⟩ := by
  refine ⟨?_, rfl, rfl⟩
  unfold diffOpt diff jsStr
  split <;> rfl

/-- A faithful character-diff collaborator reports at least one inserted or
removed segment whenever the inputs differ (otherwise both inputs would
equal the concatenation of the unchanged segments). -/
theorem dcFaithful_any_true {dc : String → String → List DiffPart}
    (hdc : dcFaithful dc) {a b : String} (h : a ≠ b) :
    (dc a b).any (fun q => q.added || q.removed) = true := by
  by_contra hcon
  apply h
  have hall : ∀ q ∈ dc a b, q.added = false ∧ q.removed = false := by
    intro q hq
    have := fun hp => hcon (List.any_eq_true.mpr ⟨q, hq, hp⟩)
    constructor
    · cases hA : q.added
      · rfl
      · exact absurd (by simp [hA]) this
    · cases hR : q.removed
      · rfl
      · exact absurd (by simp [hR]) this
  have hone : (dc a b).filter (fun q => !q.added) = dc a b :=
    List.filter_eq_self.mpr (fun q hq => by simp [(hall q hq).1])
  have htwo : (dc a b).filter (fun q => !q.removed) = dc a b :=
    List.filter_eq_self.mpr (fun q hq => by simp [(hall q hq).2])
  have ha := (hdc a b).1
  have hb := (hdc a b).2
  rw [hone] at ha
  rw [htwo] at hb
  exact ha.symm.trans hb

/-- Counterexample to claim C1 as stated: change detection is not
symmetric.  The old tree of `"x"` holds a text node where the new tree of
`"<div></div>"` holds an element; the tag check (combined.js line 47) skips
the report because the OLD side is a text node, no other check fires, and
the forward diff reports no change, while the reverse diff reports the
div-to-text tag change. -/
theorem c1_symmetry_counterexample :
    (diff parse0 dc0 "x" "<div></div>").changed = false
    ∧ (diff parse0 dc0 "<div></div>" "x").changed = true := by
  constructor <;>
    simp [diff, compareHTML, normalizeHtml, jsTrim, replaceGtWsLtF, htmlTest,
      htmlTestAux, isAsciiLetter, isJsSpace, parse0, docX, docDiv, docNode,
      elemNode, headNode, textNode, compareNodes, compareChildren, attrDiffs,
      jsMap, mapSet, mapGet, oldAttrStep, newAttrStep, childPath, dc0, segOf]

/-- Claim C1 as amended: change detection is symmetric in flat-text mode
(for a faithful character-diff collaborator) and for HTML inputs that are
equal after whitespace normalization; for HTML inputs in general it can
fail when a text node in one tree faces an element in the other, because
the tag check only asks whether the old node is a text node. -/
theorem c1_symmetry_amended (parse : String → Node)
    (dc : String → String → List DiffPart) (a b c d : String)
    (hdc : dcFaithful dc)
    (hflat : (htmlTest a || htmlTest b) = false)
    (hhtml : (htmlTest c || htmlTest d) = true)
    (hnorm : normalizeHtml c = normalizeHtml d) :
    (diff parse dc a b).changed = (diff parse dc b a).changed
    ∧ (diff parse dc c d).changed = (diff parse dc d c).changed := by
  constructor
  · unfold diff
    rw [hflat, Bool.or_comm, hflat]
    unfold compareText
    by_cases hab : a = b
    · simp [hab]
    · have hba : ¬b = a := fun hh => hab hh.symm
      rw [if_neg hab, if_neg hba]
      simp [dcFaithful_any_true hdc hab, dcFaithful_any_true hdc hba]
  · unfold diff
    rw [hhtml, Bool.or_comm, hhtml]
    unfold compareHTML
    simp [hnorm]

/-- Witness for the amended C1: a non-HTML pair and an HTML pair equal up to
inter-tag whitespace. -/
theorem c1_symmetry_amended_witness :
    (diff parse0 dc0 "ab" "cd").changed = (diff parse0 dc0 "cd" "ab").changed
    ∧ (diff parse0 dc0 "<p> <b></b></p>" "<p><b></b></p>").changed
        = (diff parse0 dc0 "<p><b></b></p>" "<p> <b></b></p>").changed :=
  c1_symmetry_amended parse0 dc0 "ab" "cd" "<p> <b></b></p>" "<p><b></b></p>"
    dc0_faithful (by decide) (by decide) (by decide)

/-- In HTML mode the changed flag is defined as the nonemptiness of the
difference list. -/
theorem compareHTML_changed_iff (parse : String → Node)
    (dc : String → String → List DiffPart) (a b : String) :
    ((compareHTML parse dc a b).changed = false
      ↔ (compareHTML parse dc a b).differences = []) := by
  unfold compareHTML
  by_cases h : normalizeHtml a = normalizeHtml b
  · simp [h]
  · simp [h, List.length_pos]

/-- In flat-text mode, with a faithful character-diff collaborator, the
changed flag is false exactly when the difference list is empty. -/
theorem compareText_changed_iff (dc : String → String → List DiffPart)
    (a b : String) (hdc : dcFaithful dc) :
    ((compareText dc a b).changed = false
      ↔ (compareText dc a b).differences = []) := by
  unfold compareText
  by_cases h : a = b
  · simp [h]
  · simp [h, dcFaithful_any_true hdc h]

/-- Claim C6: in both HTML and flat-text mode (for a faithful
character-diff collaborator) the returned `changed` flag is false exactly
when the `differences` list is empty. -/
theorem c6_changed_iff_empty (parse : String → Node)
    (dc : String → String → List DiffPart) (a b : String)
    (hdc : dcFaithful dc) :
    ((diff parse dc a b).changed = false
      ↔ (diff parse dc a b).differences = []) := by
  by_cases hc : (htmlTest a || htmlTest b) = true
  · have hd : diff parse dc a b = compareHTML parse dc a b := by
      unfold diff
      rw [if_pos hc]
    rw [hd]
    exact compareHTML_changed_iff parse dc a b
  · have hd : diff parse dc a b = compareText dc a b := by
      unfold diff
      rw [if_neg hc]
    rw [hd]
    exact compareText_changed_iff dc a b hdc

/-- Witness for C6 at a concrete changed flat-text pair. -/
theorem c6_changed_iff_empty_witness :
    ((diff parse0 dc0 "ab" "cd").changed = false
      ↔ (diff parse0 dc0 "ab" "cd").differences = []) :=
  c6_changed_iff_empty parse0 dc0 "ab" "cd" dc0_faithful

/-! ### Path geometry: every child path is strictly longer than its
parent path, and every reported difference lives at or below the path of
the call that produced it.  These facts let the tag-check claim (C2)
distinguish a node's own differences from its descendants' ones. -/

theorem toDigitsCore_length_ge (b f : Nat) :
    ∀ (n : Nat) (ds : List Char),
      ds.length ≤ (Nat.toDigitsCore b f n ds).length := by
  induction f with
  | zero => intro n ds; simp [Nat.toDigitsCore]
  | succ f ih =>
    intro n ds
    simp only [Nat.toDigitsCore]
    split
    · simp
    · exact le_trans (by simp) (ih (n / b) (Nat.digitChar (n % b) :: ds))

theorem repr_length_pos (i : Nat) : 0 < (Nat.repr i).length := by
  simp only [Nat.repr, Nat.toDigits, String.length, List.asString]
  simp only [Nat.toDigitsCore]
  split
  · simp
  · exact lt_of_lt_of_le (by simp)
      (toDigitsCore_length_ge 10 i (i / 10) [Nat.digitChar (i % 10)])

theorem childPath_length_lt (p : String) (i : Nat) :
    p.length < (childPath p i).length := by
  unfold childPath
  split
  · rename_i h
    rw [h]
    simpa using repr_length_pos i
  · rw [String.length_append, String.length_append]
    have h2 : ("/" : String).length = 1 := rfl
    omega

theorem attrDiffs_dpath (q : String) (A B : List (String × String)) :
    ∀ d ∈ attrDiffs q A B, d.dpath = some q := by
  intro d hd
  unfold attrDiffs at hd
  rcases List.mem_append.mp hd with h | h
  · obtain ⟨e, _, he⟩ := List.mem_filterMap.mp h
    unfold oldAttrStep at he
    split at he
    · cases he
      rfl
    · split at he
      · cases he
        rfl
      · cases he
  · obtain ⟨e, _, he⟩ := List.mem_filterMap.mp h
    unfold newAttrStep at he
    split at he
    · cases he
      rfl
    · cases he

theorem attrDiffs_attrName (q : String) (A B : List (String × String)) :
    ∀ d ∈ attrDiffs q A B, ∃ k, d.attrName = some k := by
  intro d hd
  unfold attrDiffs at hd
  rcases List.mem_append.mp hd with h | h
  · obtain ⟨e, _, he⟩ := List.mem_filterMap.mp h
    unfold oldAttrStep at he
    split at he
    · cases he
      exact ⟨e.1, rfl⟩
    · split at he
      · cases he
        exact ⟨e.1, rfl⟩
      · cases he
  · obtain ⟨e, _, he⟩ := List.mem_filterMap.mp h
    unfold newAttrStep at he
    split at he
    · cases he
      exact ⟨e.1, rfl⟩
    · cases he

theorem nodePathProp_none (dc : String → String → List DiffPart)
    (x : Option Node) (q : String) : NodePathProp dc none x q := by
  intro d hd
  simp [compareNodes] at hd
  subst hd
  exact ⟨q, rfl, le_refl _⟩

theorem nodePathProp_some_none (dc : String → String → List DiffPart)
    (v : Node) (q : String) : NodePathProp dc (some v) none q := by
  intro d hd
  simp [compareNodes] at hd
  subst hd
  exact ⟨q, rfl, le_refl _⟩

theorem nodePathProp_pair (dc : String → String → List DiffPart)
    (onm ov : String) (oas : Option (List (String × String)))
    (ocs : List Node) (nnm nv : String)
    (nas : Option (List (String × String))) (ncs : List Node) (q : String)
    (ih : ChildPathProp dc ocs ncs q 0) :
    NodePathProp dc (some (Node.mk onm ov oas ocs))
      (some (Node.mk nnm nv nas ncs)) q := by
  intro d hd
  rcases oas with _ | oa <;> rcases nas with _ | na <;>
  · simp only [compareNodes] at hd
    rcases List.mem_append.mp hd with h | h
    · rcases List.mem_append.mp h with h1 | h1
      · rcases List.mem_append.mp h1 with h2 | h2
        · split at h2
          · simp at h2
            subst h2
            exact ⟨q, rfl, le_refl _⟩
          · cases h2
        · split at h2
          · split at h2
            · simp at h2
              subst h2
              exact ⟨q, rfl, le_refl _⟩
            · cases h2
          · cases h2
      · first
        | cases h1
        | exact ⟨q, attrDiffs_dpath q _ _ d h1, le_refl _⟩
    · obtain ⟨s, hs, hlt⟩ := ih d h
      exact ⟨s, hs, le_of_lt hlt⟩

theorem childPathProp_nil (dc : String → String → List DiffPart)
    (q : String) (i : Nat) : ChildPathProp dc [] [] q i := by
  intro d hd
  simp [compareChildren] at hd

theorem childPathProp_cons_left (dc : String → String → List DiffPart)
    (o : Node) (os : List Node) (q : String) (i : Nat)
    (h1 : NodePathProp dc (some o) none (childPath q i))
    (h2 : ChildPathProp dc os [] q (i + 1)) :
    ChildPathProp dc (o :: os) [] q i := by
  intro d hd
  simp only [compareChildren] at hd
  rcases List.mem_append.mp hd with h | h
  · obtain ⟨s, hs, hle⟩ := h1 d h
    exact ⟨s, hs, lt_of_lt_of_le (childPath_length_lt q i) hle⟩
  · exact h2 d h

theorem childPathProp_cons_right (dc : String → String → List DiffPart)
    (n : Node) (ns : List Node) (q : String) (i : Nat)
    (h1 : NodePathProp dc none (some n) (childPath q i))
    (h2 : ChildPathProp dc [] ns q (i + 1)) :
    ChildPathProp dc [] (n :: ns) q i := by
  intro d hd
  simp only [compareChildren] at hd
  rcases List.mem_append.mp hd with h | h
  · obtain ⟨s, hs, hle⟩ := h1 d h
    exact ⟨s, hs, lt_of_lt_of_le (childPath_length_lt q i) hle⟩
  · exact h2 d h

theorem childPathProp_cons_both (dc : String → String → List DiffPart)
    (o : Node) (os : List Node) (n : Node) (ns : List Node)
    (q : String) (i : Nat)
    (h1 : NodePathProp dc (some o) (some n) (childPath q i))
    (h2 : ChildPathProp dc os ns q (i + 1)) :
    ChildPathProp dc (o :: os) (n :: ns) q i := by
  intro d hd
  simp only [compareChildren] at hd
  rcases List.mem_append.mp hd with h | h
  · obtain ⟨s, hs, hle⟩ := h1 d h
    exact ⟨s, hs, lt_of_lt_of_le (childPath_length_lt q i) hle⟩
  · exact h2 d h

theorem compareNodes_path_lb (dc : String → String → List DiffPart)
    (o n : Option Node) (q : String) : NodePathProp dc o n q :=
  compareNodes.induct dc (NodePathProp dc) (ChildPathProp dc)
    (nodePathProp_none dc) (nodePathProp_some_none dc)
    (fun a v at1 cs b v2 at2 ds p ih =>
      nodePathProp_pair dc a v at1 cs b v2 at2 ds p ih)
    (childPathProp_nil dc)
    (fun x xs p i h1 h2 => childPathProp_cons_left dc x xs p i h1 h2)
    (fun x xs p i h1 h2 => childPathProp_cons_right dc x xs p i h1 h2)
    (fun x xs y ys p i h1 h2 => childPathProp_cons_both dc x xs y ys p i h1 h2)
    o n q

theorem compareChildren_path_lb (dc : String → String → List DiffPart)
    (os ns : List Node) (q : String) (i : Nat) : ChildPathProp dc os ns q i :=
  compareChildren.induct dc (NodePathProp dc) (ChildPathProp dc)
    (nodePathProp_none dc) (nodePathProp_some_none dc)
    (fun a v at1 cs b v2 at2 ds p ih =>
      nodePathProp_pair dc a v at1 cs b v2 at2 ds p ih)
    (childPathProp_nil dc)
    (fun x xs p j h1 h2 => childPathProp_cons_left dc x xs p j h1 h2)
    (fun x xs p j h1 h2 => childPathProp_cons_right dc x xs p j h1 h2)
    (fun x xs y ys p j h1 h2 => childPathProp_cons_both dc x xs y ys p j h1 h2)
    os ns q i

/-- Counterexample to claim C2 as stated: a `changed` difference is emitted
for a pair whose NEW node is a text node (claim C2 requires that neither
node be a text node).  The guard in combined.js line 47 only tests the old
side. -/
theorem c2_tag_change_counterexample :
    compareNodes dc0 (some (elemNode "div" [] [])) (some (textNode "x")) ""
      = [DiffItem.changed "" "div" "#text"]
    ∧ (textNode "x").nodeName = "#text" := by
  constructor
  · simp [compareNodes, compareChildren, elemNode, textNode, attrDiffs,
      jsMap, mapSet, mapGet, oldAttrStep, newAttrStep, jsTrim, dc0]
  · rfl

/-- Claim C2 as amended: with both nodes present, a `changed` difference
carrying the two tag names is emitted at the pair's path exactly when the
tag names differ and the OLD node is not a text node (the new node's kind
is not consulted); and emitting it does not stop recursion — the attribute
comparison and the positional child comparison still contribute their
differences after it. -/
theorem c2_tag_change_amended (dc : String → String → List DiffPart)
    (o n : Node) (p : String) (oa na : List (String × String))
    (ho : o.attrs = some oa) (hn : n.attrs = some na) :
    ((DiffItem.changed p o.nodeName n.nodeName
        ∈ compareNodes dc (some o) (some n) p)
      ↔ (o.nodeName ≠ n.nodeName ∧ o.nodeName ≠ "#text"))
    ∧ attrDiffs p oa na
        ++ compareChildren dc o.childNodes n.childNodes p 0
        <:+ compareNodes dc (some o) (some n) p := by
  cases o with
  | mk onm ov oas ocs =>
  cases n with
  | mk nnm nv nas ncs =>
  simp only [Node.attrs] at ho hn
  subst ho
  subst hn
  simp only [Node.nodeName, Node.childNodes]
  constructor
  · constructor
    · intro hmem
      simp only [compareNodes] at hmem
      rcases List.mem_append.mp hmem with h | h
      · rcases List.mem_append.mp h with h1 | h1
        · rcases List.mem_append.mp h1 with h2 | h2
          · split at h2
            · rename_i hc
              exact hc
            · cases h2
          · split at h2
            · split at h2
              · simp at h2
              · cases h2
            · cases h2
        · obtain ⟨k, hk⟩ := attrDiffs_attrName p oa na _ h1
          simp [DiffItem.attrName] at hk
      · obtain ⟨s, hs, hlt⟩ := compareChildren_path_lb dc ocs ncs p 0 _ h
        simp [DiffItem.dpath] at hs
        subst hs
        exact absurd hlt (lt_irrefl _)
    · intro hc
      simp only [compareNodes]
      refine List.mem_append.mpr (Or.inl (List.mem_append.mpr
        (Or.inl (List.mem_append.mpr (Or.inl ?_)))))
      rw [if_pos hc]
      exact List.mem_singleton.mpr rfl
  · simp only [compareNodes]
    exact ⟨_, (List.append_assoc _ _ _).symm⟩

/-- Witness for the amended C2 at a concrete element pair with differing
tags and one shared attribute. -/
theorem c2_tag_change_amended_witness :
    ((DiffItem.changed "" (elemNode "p" [("a", "1")] []).nodeName
          (elemNode "q" [("a", "1")] []).nodeName
        ∈ compareNodes dc0 (some (elemNode "p" [("a", "1")] []))
            (some (elemNode "q" [("a", "1")] [])) "")
      ↔ ((elemNode "p" [("a", "1")] []).nodeName
            ≠ (elemNode "q" [("a", "1")] []).nodeName
          ∧ (elemNode "p" [("a", "1")] []).nodeName ≠ "#text"))
    ∧ attrDiffs "" [("a", "1")] [("a", "1")]
        ++ compareChildren dc0 (elemNode "p" [("a", "1")] []).childNodes
            (elemNode "q" [("a", "1")] []).childNodes "" 0
        <:+ compareNodes dc0 (some (elemNode "p" [("a", "1")] []))
            (some (elemNode "q" [("a", "1")] [])) "" :=
  c2_tag_change_amended dc0 _ _ "" [("a", "1")] [("a", "1")] rfl rfl

/-! ### Attribute-map lemmas for claim C7 -/

theorem mapSet_keys_mem (m : List (String × String)) (k v : String)
    (h : m.any (fun e => e.1 = k) = true) :
    (mapSet m k v).map Prod.fst = m.map Prod.fst := by
  unfold mapSet
  rw [if_pos h, List.map_map]
  apply List.map_congr_left
  intro e _
  by_cases hc : e.1 = k <;> simp [hc]

theorem mapSet_keys_new (m : List (String × String)) (k v : String)
    (h : ¬m.any (fun e => e.1 = k) = true) :
    (mapSet m k v).map Prod.fst = m.map Prod.fst ++ [k] := by
  unfold mapSet
  rw [if_neg h, List.map_append]
  rfl

theorem jsMap_keys_nodup (l : List (String × String)) :
    ((jsMap l).map Prod.fst).Nodup := by
  have key : ∀ (t : List (String × String)) (acc : List (String × String)),
      (acc.map Prod.fst).Nodup →
      ((t.foldl (fun m e => mapSet m e.1 e.2) acc).map Prod.fst).Nodup := by
    intro t
    induction t with
    | nil => intro acc h; simpa using h
    | cons e t ih =>
      intro acc h
      simp only [List.foldl_cons]
      apply ih
      by_cases hc : acc.any (fun x => x.1 = e.1) = true
      · rw [mapSet_keys_mem acc e.1 e.2 hc]
        exact h
      · rw [mapSet_keys_new acc e.1 e.2 hc]
        refine List.Nodup.append h (List.nodup_singleton _) ?_
        intro x hx hx1
        rcases List.mem_singleton.mp hx1 with rfl
        obtain ⟨ent, hent, hfst⟩ := List.mem_map.mp hx
        exact hc (List.any_eq_true.mpr ⟨ent, hent, by simp [hfst]⟩)
  exact key l [] (by simp)

theorem mapGet_eq_some_iff_mem (m : List (String × String))
    (hk : (m.map Prod.fst).Nodup) (k v : String) :
    mapGet m k = some v ↔ (k, v) ∈ m := by
  induction m with
  | nil => simp [mapGet]
  | cons e t ih =>
    rw [List.map_cons, List.nodup_cons] at hk
    by_cases hc : e.1 = k
    · unfold mapGet
      rw [List.find?_cons_of_pos _ (by simpa using hc)]
      constructor
      · intro hv
        simp only [Option.map_some'] at hv
        have he : e = (k, v) := by
          cases e
          simp_all
        rw [he]
        exact List.mem_cons_self _ _
      · intro hmem
        rcases List.mem_cons.mp hmem with he | ht
        · rw [← he]
          rfl
        · exact absurd (hc ▸ List.mem_map.mpr ⟨(k, v), ht, rfl⟩) hk.1
    · unfold mapGet
      rw [List.find?_cons_of_neg _ (by simpa using hc)]
      rw [show ((t.find? fun e => e.1 = k).map fun e => e.2) = mapGet t k
          from rfl]
      rw [ih hk.2]
      constructor
      · exact fun h => List.mem_cons_of_mem e h
      · intro hmem
        rcases List.mem_cons.mp hmem with he | ht
        · exact absurd (by rw [← he]) hc
        · exact ht

theorem filterMap_map_sublist {α β γ : Type} (f : α → Option β) (h : β → γ)
    (g : α → γ) (hc : ∀ a b, f a = some b → h b = g a) (l : List α) :
    List.Sublist ((l.filterMap f).map h) (l.map g) := by
  induction l with
  | nil => simp
  | cons a t ih =>
    rw [List.map_cons]
    cases hfa : f a with
    | none =>
      rw [List.filterMap_cons_none hfa]
      exact ih.cons _
    | some b =>
      rw [List.filterMap_cons_some hfa, List.map_cons, hc a b hfa]
      exact ih.cons₂ _

/-- Claim C7: attribute comparison of an element pair emits exactly one
difference per differing key — `attributeRemoved` for old-only keys,
`attributeAdded` for new-only keys, `attributeChanged` (with old and new
value) for keys whose values differ, nothing for equal values — with the
old-map entries first in old-map insertion order, then the new-only keys in
new-map insertion order. -/
theorem c7_attribute_comparison (p : String)
    (A B : List (String × String)) :
    (∀ k v, DiffItem.attributeRemoved p k v ∈ attrDiffs p A B
        ↔ (mapGet (jsMap A) k = some v ∧ mapGet (jsMap B) k = none))
    ∧ (∀ k v w, DiffItem.attributeChanged p k v w ∈ attrDiffs p A B
        ↔ (mapGet (jsMap A) k = some v ∧ mapGet (jsMap B) k = some w
            ∧ w ≠ v))
    ∧ (∀ k v, DiffItem.attributeAdded p k v ∈ attrDiffs p A B
        ↔ (mapGet (jsMap B) k = some v ∧ mapGet (jsMap A) k = none))
    ∧ (attrDiffs p A B).Nodup
    ∧ (∃ olds news, attrDiffs p A B = olds ++ news
        ∧ List.Sublist (olds.map DiffItem.attrName)
            ((jsMap A).map (fun e => some e.1))
        ∧ List.Sublist (news.map DiffItem.attrName)
            ((jsMap B).map (fun e => some e.1))
        ∧ (∀ d ∈ olds, (∃ k v, d = DiffItem.attributeRemoved p k v)
            ∨ (∃ k v w, d = DiffItem.attributeChanged p k v w))
        ∧ (∀ d ∈ news, ∃ k v, d = DiffItem.attributeAdded p k v)) := by
  have holdshape : ∀ d ∈ (jsMap A).filterMap (oldAttrStep (jsMap B) p),
      (∃ k v, d = DiffItem.attributeRemoved p k v)
        ∨ ∃ k v w, d = DiffItem.attributeChanged p k v w := by
    intro d hd
    obtain ⟨e, _, he⟩ := List.mem_filterMap.mp hd
    unfold oldAttrStep at he
    split at he
    · cases he
      exact Or.inl ⟨e.1, e.2, rfl⟩
    · split at he
      · cases he
        exact Or.inr ⟨e.1, e.2, _, rfl⟩
      · cases he
  have hnewshape : ∀ d ∈ (jsMap B).filterMap (newAttrStep (jsMap A) p),
      ∃ k v, d = DiffItem.attributeAdded p k v := by
    intro d hd
    obtain ⟨e, _, he⟩ := List.mem_filterMap.mp hd
    unfold newAttrStep at he
    split at he
    · cases he
      exact ⟨e.1, e.2, rfl⟩
    · cases he
  have holdsub : List.Sublist (((jsMap A).filterMap
        (oldAttrStep (jsMap B) p)).map DiffItem.attrName)
      ((jsMap A).map (fun e => some e.1)) := by
    apply filterMap_map_sublist
    intro e d he
    unfold oldAttrStep at he
    split at he
    · cases he
      rfl
    · split at he
      · cases he
        rfl
      · cases he
  have hnewsub : List.Sublist (((jsMap B).filterMap
        (newAttrStep (jsMap A) p)).map DiffItem.attrName)
      ((jsMap B).map (fun e => some e.1)) := by
    apply filterMap_map_sublist
    intro e d he
    unfold newAttrStep at he
    split at he
    · cases he
      rfl
    · cases he
  have hkeysome : ∀ (C : List (String × String)),
      ((jsMap C).map (fun e => some e.1)).Nodup := by
    intro C
    have : (jsMap C).map (fun e => some e.1)
        = ((jsMap C).map Prod.fst).map some := by
      rw [List.map_map]
      rfl
    rw [this]
    exact (jsMap_keys_nodup C).map (Option.some_injective _)
  refine ⟨?_, ?_, ?_, ?_, ?_⟩
  · intro k v
    unfold attrDiffs
    rw [List.mem_append]
    constructor
    · rintro (h | h)
      · obtain ⟨e, he, hstep⟩ := List.mem_filterMap.mp h
        unfold oldAttrStep at hstep
        split at hstep
        · rename_i hget
          cases hstep
          exact ⟨(mapGet_eq_some_iff_mem _ (jsMap_keys_nodup A) _ _).mpr
            (by simpa using he), hget⟩
        · split at hstep
          · cases hstep
          · cases hstep
      · obtain ⟨e, he, hstep⟩ := List.mem_filterMap.mp h
        unfold newAttrStep at hstep
        split at hstep
        · cases hstep
        · cases hstep
    · rintro ⟨hA, hB⟩
      left
      refine List.mem_filterMap.mpr ⟨(k, v),
        (mapGet_eq_some_iff_mem _ (jsMap_keys_nodup A) k v).mp hA, ?_⟩
      simp [oldAttrStep, hB]
  · intro k v w
    unfold attrDiffs
    rw [List.mem_append]
    constructor
    · rintro (h | h)
      · obtain ⟨e, he, hstep⟩ := List.mem_filterMap.mp h
        unfold oldAttrStep at hstep
        split at hstep
        · cases hstep
        · rename_i w2 hget
          split at hstep
          · rename_i hne
            cases hstep
            exact ⟨(mapGet_eq_some_iff_mem _ (jsMap_keys_nodup A) _ _).mpr
              (by simpa using he), hget, hne⟩
          · cases hstep
      · obtain ⟨e, he, hstep⟩ := List.mem_filterMap.mp h
        unfold newAttrStep at hstep
        split at hstep
        · cases hstep
        · cases hstep
    · rintro ⟨hA, hB, hne⟩
      left
      refine List.mem_filterMap.mpr ⟨(k, v),
        (mapGet_eq_some_iff_mem _ (jsMap_keys_nodup A) k v).mp hA, ?_⟩
      simp [oldAttrStep, hB, hne]
  · intro k v
    unfold attrDiffs
    rw [List.mem_append]
    constructor
    · rintro (h | h)
      · obtain ⟨e, he, hstep⟩ := List.mem_filterMap.mp h
        unfold oldAttrStep at hstep
        split at hstep
        · cases hstep
        · split at hstep
          · cases hstep
          · cases hstep
      · obtain ⟨e, he, hstep⟩ := List.mem_filterMap.mp h
        unfold newAttrStep at hstep
        split at hstep
        · rename_i hget
          cases hstep
          exact ⟨(mapGet_eq_some_iff_mem _ (jsMap_keys_nodup B) _ _).mpr
            (by simpa using he), hget⟩
        · cases hstep
    · rintro ⟨hB, hA⟩
      right
      refine List.mem_filterMap.mpr ⟨(k, v),
        (mapGet_eq_some_iff_mem _ (jsMap_keys_nodup B) k v).mp hB, ?_⟩
      simp [newAttrStep, hA]
  · unfold attrDiffs
    refine List.Nodup.append ?_ ?_ ?_
    · exact List.Nodup.of_map DiffItem.attrName
        (List.Nodup.sublist holdsub (hkeysome A))
    · exact List.Nodup.of_map DiffItem.attrName
        (List.Nodup.sublist hnewsub (hkeysome B))
    · intro d hd hd2
      have hshape2 := hnewshape d hd2
      rcases holdshape d hd with ⟨k, v, rfl⟩ | ⟨k, v, w, rfl⟩ <;>
      · obtain ⟨k2, v2, he⟩ := hshape2
        simp at he
  · exact ⟨_, _, rfl, holdsub, hnewsub, holdshape, hnewshape⟩

/-- Witness for C7: the scenario attribute change `class="old"` to
`class="new"` produces the corresponding `attributeChanged` difference. -/
theorem c7_attribute_comparison_witness :
    DiffItem.attributeChanged "" "class" "old" "new"
      ∈ attrDiffs "" [("class", "old")] [("class", "new")] :=
  ((c7_attribute_comparison "" [("class", "old")]
    [("class", "new")]).2.1 "class" "old" "new").mpr (by decide)

/-! ### Claim C9: the separated entry point computes the partition of the
combined one -/

theorem attrDiffs_kind (q : String) (A B : List (String × String)) :
    ∀ d ∈ attrDiffs q A B, d.kind = "structural" := by
  intro d hd
  unfold attrDiffs at hd
  rcases List.mem_append.mp hd with h | h
  · obtain ⟨e, _, he⟩ := List.mem_filterMap.mp h
    unfold oldAttrStep at he
    split at he
    · cases he
      rfl
    · split at he
      · cases he
        rfl
      · cases he
  · obtain ⟨e, _, he⟩ := List.mem_filterMap.mp h
    unfold newAttrStep at he
    split at he
    · cases he
      rfl
    · cases he

theorem filter_struct_attrDiffs (q : String) (A B : List (String × String)) :
    (attrDiffs q A B).filter (fun d => d.kind == "structural")
      = attrDiffs q A B :=
  List.filter_eq_self.mpr (fun d hd => by simp [attrDiffs_kind q A B d hd])

theorem filter_text_attrDiffs (q : String) (A B : List (String × String)) :
    (attrDiffs q A B).filter (fun d => d.kind == "text") = [] :=
  List.filter_eq_nil_iff.mpr
    (fun d hd => by simp [attrDiffs_kind q A B d hd])

theorem sepNodeProp_none (dc : String → String → List DiffPart)
    (x : Option Node) (q : String) : SepNodeProp dc none x q := by
  simp [SepNodeProp, sepCompareNodes, compareNodes, DiffItem.kind]

theorem sepNodeProp_some_none (dc : String → String → List DiffPart)
    (v : Node) (q : String) : SepNodeProp dc (some v) none q := by
  simp [SepNodeProp, sepCompareNodes, compareNodes, DiffItem.kind]

theorem kind_changed_eq (p t1 t2 : String) :
    (DiffItem.changed p t1 t2).kind = "structural" := rfl

theorem kind_textDiff_eq (p : Option String) (cs : List Seg) :
    (DiffItem.textDiff p cs).kind = "text" := rfl

theorem sepNodeProp_pair (dc : String → String → List DiffPart)
    (onm ov : String) (oas : Option (List (String × String)))
    (ocs : List Node) (nnm nv : String)
    (nas : Option (List (String × String))) (ncs : List Node) (q : String)
    (ih : SepChildProp dc ocs ncs q 0) :
    SepNodeProp dc (some (Node.mk onm ov oas ocs))
      (some (Node.mk nnm nv nas ncs)) q := by
  unfold SepChildProp at ih
  unfold SepNodeProp
  rcases oas with _ | oa <;> rcases nas with _ | na <;>
    by_cases h1 : onm ≠ nnm ∧ onm ≠ "#text" <;>
    by_cases h2 : onm = "#text" ∧ nnm = "#text" <;>
    by_cases h3 : jsTrim ov ≠ jsTrim nv <;>
      simp [sepCompareNodes, compareNodes, h1, h2, h3, ih,
        List.filter_append, filter_struct_attrDiffs, filter_text_attrDiffs,
        kind_changed_eq, kind_textDiff_eq]

theorem sepChildProp_nil (dc : String → String → List DiffPart)
    (q : String) (i : Nat) : SepChildProp dc [] [] q i := by
  simp [SepChildProp, sepCompareChildren, compareChildren]

theorem sepChildProp_cons_left (dc : String → String → List DiffPart)
    (o : Node) (os : List Node) (q : String) (i : Nat)
    (h1 : SepNodeProp dc (some o) none (childPath q i))
    (h2 : SepChildProp dc os [] q (i + 1)) :
    SepChildProp dc (o :: os) [] q i := by
  unfold SepNodeProp at h1
  unfold SepChildProp at h2 ⊢
  simp [sepCompareChildren, compareChildren, h1, h2, List.filter_append]

theorem sepChildProp_cons_right (dc : String → String → List DiffPart)
    (n : Node) (ns : List Node) (q : String) (i : Nat)
    (h1 : SepNodeProp dc none (some n) (childPath q i))
    (h2 : SepChildProp dc [] ns q (i + 1)) :
    SepChildProp dc [] (n :: ns) q i := by
  unfold SepNodeProp at h1
  unfold SepChildProp at h2 ⊢
  simp [sepCompareChildren, compareChildren, h1, h2, List.filter_append]

theorem sepChildProp_cons_both (dc : String → String → List DiffPart)
    (o : Node) (os : List Node) (n : Node) (ns : List Node)
    (q : String) (i : Nat)
    (h1 : SepNodeProp dc (some o) (some n) (childPath q i))
    (h2 : SepChildProp dc os ns q (i + 1)) :
    SepChildProp dc (o :: os) (n :: ns) q i := by
  unfold SepNodeProp at h1
  unfold SepChildProp at h2 ⊢
  simp [sepCompareChildren, compareChildren, h1, h2, List.filter_append]

theorem sepCompareNodes_eq_filter (dc : String → String → List DiffPart)
    (o n : Option Node) (q : String) : SepNodeProp dc o n q :=
  sepCompareNodes.induct dc (SepNodeProp dc) (SepChildProp dc)
    (sepNodeProp_none dc) (sepNodeProp_some_none dc)
    (fun a v at1 cs b v2 at2 ds p ih =>
      sepNodeProp_pair dc a v at1 cs b v2 at2 ds p ih)
    (sepChildProp_nil dc)
    (fun x xs p j h1 h2 => sepChildProp_cons_left dc x xs p j h1 h2)
    (fun x xs p j h1 h2 => sepChildProp_cons_right dc x xs p j h1 h2)
    (fun x xs y ys p j h1 h2 => sepChildProp_cons_both dc x xs y ys p j h1 h2)
    o n q

/-- Any difference is either structural-kind or text-kind, never both. -/
theorem kind_dichotomy (d : DiffItem) :
    (d.kind == "text") = !(d.kind == "structural") := by
  cases d <;> rfl

/-- Claim C9: for every pair of HTML inputs the separated entry point
returns the same changed flag as the combined one, its structural list is
the structural-kind filter of the combined difference list, and its text
list is the text-kind filter — each preserving relative order. -/
theorem c9_separated_is_partition (parse : String → Node)
    (dc : String → String → List DiffPart) (a b : String) :
    sepCompareHTML parse dc a b
      = ⟨(compareHTML parse dc a b).changed,
         (compareHTML parse dc a b).differences.filter
           (fun d => d.kind == "structural"),
         (compareHTML parse dc a b).differences.filter
           (fun d => d.kind == "text")⟩ := by
  unfold sepCompareHTML compareHTML
  by_cases h : normalizeHtml a = normalizeHtml b
  · simp [h]
  · have hsep := sepCompareNodes_eq_filter dc
      (some (parse (normalizeHtml a))) (some (parse (normalizeHtml b))) ""
    unfold SepNodeProp at hsep
    simp only [if_neg h, hsep, SepResult.mk.injEq, and_true, true_and]
    set ds := compareNodes dc (some (parse (normalizeHtml a)))
      (some (parse (normalizeHtml b))) "" with hds
    have hTf : ds.filter (fun d => d.kind == "text")
        = ds.filter (fun d => !(d.kind == "structural")) :=
      List.filter_congr (fun d _ => kind_dichotomy d)
    have hlen : ds.length
        = (ds.filter (fun d => d.kind == "structural")).length
          + (ds.filter (fun d => d.kind == "text")).length := by
      rw [hTf]
      exact List.length_eq_length_filter_add _
    rw [← Bool.decide_or, decide_eq_decide]
    omega

/-! ### Claim C10: escaping in the preview renderer -/

theorem replaceChar_append (c : Char) (r : List Char) (a b : List Char) :
    replaceChar c r (a ++ b) = replaceChar c r a ++ replaceChar c r b := by
  induction a with
  | nil => rfl
  | cons x xs ih =>
    simp only [List.cons_append, replaceChar]
    split <;> simp [ih]

theorem escPipeline_eq (l : List Char) :
    replaceChar aposChar numEnt (replaceChar quoteChar quotEnt
      (replaceChar '>' gtEnt (replaceChar '<' ltEnt
        (replaceChar '&' ampEnt l)))) = (l.map escChar).flatten := by
  induction l with
  | nil => rfl
  | cons c cs ih =>
    rw [List.map_cons, List.flatten_cons, ← ih]
    by_cases h1 : c = '&'
    · subst h1
      simp [replaceChar, replaceChar_append, escChar, ampEnt, quoteChar,
        aposChar]
    · by_cases h2 : c = '<'
      · subst h2
        simp [replaceChar, replaceChar_append, escChar, ltEnt, quoteChar,
          aposChar]
      · by_cases h3 : c = '>'
        · subst h3
          simp [replaceChar, replaceChar_append, escChar, gtEnt, quoteChar,
            aposChar]
        · by_cases h4 : c = quoteChar
          · subst h4
            simp [replaceChar, replaceChar_append, escChar, quotEnt,
              quoteChar, aposChar]
          · by_cases h5 : c = aposChar
            · subst h5
              simp [replaceChar, replaceChar_append, escChar, numEnt,
                quoteChar, aposChar, h1, h2, h3, h4]
            · simp [replaceChar, escChar, h1, h2, h3, h4, h5]

theorem escapeHtml_data (s : String) :
    (escapeHtml s).data = (s.data.map escChar).flatten :=
  escPipeline_eq s.data

/-- No markup-significant character survives escapeHtml. -/
theorem escapeHtml_no_markup (s : String) :
    ∀ c ∈ (escapeHtml s).data,
      c ≠ '<' ∧ c ≠ '>' ∧ c ≠ quoteChar ∧ c ≠ aposChar := by
  intro c hc
  rw [escapeHtml_data] at hc
  obtain ⟨blk, hblk, hcblk⟩ := List.mem_flatten.mp hc
  obtain ⟨x, _, rfl⟩ := List.mem_map.mp hblk
  unfold escChar at hcblk
  split_ifs at hcblk with h1 h2 h3 h4 h5 <;>
    simp [ampEnt, ltEnt, gtEnt, quotEnt, numEnt] at hcblk
  · rcases hcblk with rfl | rfl | rfl | rfl | rfl <;> decide
  · rcases hcblk with rfl | rfl | rfl | rfl <;> decide
  · rcases hcblk with rfl | rfl | rfl | rfl <;> decide
  · rcases hcblk with rfl | rfl | rfl | rfl | rfl | rfl <;> decide
  · rcases hcblk with rfl | rfl | rfl | rfl | rfl | rfl <;> decide
  · subst hcblk
    exact ⟨h2, h3, h4, h5⟩

theorem entityOk_append_no_amp (a rest : List Char)
    (h : ∀ x ∈ a, x ≠ '&') : entityOk (a ++ rest) = entityOk rest := by
  induction a with
  | nil => rfl
  | cons x xs ih =>
    rw [List.cons_append]
    simp only [entityOk]
    rw [if_neg (h x (List.mem_cons_self x xs))]
    exact ih (fun y hy => h y (List.mem_cons_of_mem x hy))

theorem entityOk_block (b rest : List Char)
    (hb : b = ampEnt ∨ b = ltEnt ∨ b = gtEnt ∨ b = quotEnt ∨ b = numEnt)
    (hrest : entityOk rest = true) : entityOk (b ++ rest) = true := by
  rcases hb with rfl | rfl | rfl | rfl | rfl <;>
  · simp [ampEnt, ltEnt, gtEnt, quotEnt, numEnt, entityOk, List.isPrefixOf,
      entityOk_append_no_amp]
    first
      | exact hrest
      | rw [entityOk_append_no_amp _ rest (by decide)]
        exact hrest

/-- Every ampersand escapeHtml emits starts one of its five entity
encodings. -/
theorem entityOk_escapeHtml (s : String) :
    entityOk (escapeHtml s).data = true := by
  rw [escapeHtml_data]
  induction s.data with
  | nil => rfl
  | cons c cs ih =>
    rw [List.map_cons, List.flatten_cons]
    by_cases h1 : c = '&'
    · subst h1
      exact entityOk_block _ _ (Or.inl rfl) ih
    · by_cases h2 : c = '<'
      · subst h2
        exact entityOk_block _ _ (Or.inr (Or.inl rfl)) ih
      · by_cases h3 : c = '>'
        · subst h3
          exact entityOk_block _ _ (Or.inr (Or.inr (Or.inl rfl))) ih
        · by_cases h4 : c = quoteChar
          · subst h4
            have hb : escChar quoteChar = quotEnt := by decide
            rw [hb]
            exact entityOk_block _ _ (Or.inr (Or.inr (Or.inr (Or.inl rfl))))
              ih
          · by_cases h5 : c = aposChar
            · subst h5
              have hb : escChar aposChar = numEnt := by decide
              rw [hb]
              exact entityOk_block _ _
                (Or.inr (Or.inr (Or.inr (Or.inr rfl)))) ih
            · have hb : escChar c = [c] := by
                simp [escChar, h1, h2, h3, h4, h5]
              rw [hb, List.singleton_append]
              simp only [entityOk]
              rw [if_neg h1]
              exact ih

/-- Claim C10: escapeHtml output contains no markup-significant character
and every ampersand in it starts one of the five entity encodings; the
renderer emits text-node content through escapeHtml (and each diff segment
through the escaping span wrapper), while attribute values in serialized
opening tags pass through unescaped. -/
theorem c10_escape_safety (s : String) (dm : List DiffItem)
    (v p : String) (ats : Option (List (String × String))) (cs : List Node)
    (an av : String)
    (hnd : diffFor dm (some p) = none) :
    (∀ c ∈ (escapeHtml s).data,
        c ≠ '<' ∧ c ≠ '>' ∧ c ≠ quoteChar ∧ c ≠ aposChar)
    ∧ entityOk (escapeHtml s).data = true
    ∧ renderNode dm (Node.mk "#text" v ats cs) p = escapeHtml v
    ∧ (∀ sg : Seg, renderSeg sg
        = "<span class=\"diff-" ++ sg.type ++ "\">" ++ escapeHtml sg.content
          ++ "</span>")
    ∧ attrsString (some [(an, av)]) = " " ++ an ++ "=\"" ++ av ++ "\"" := by
  refine ⟨escapeHtml_no_markup s, entityOk_escapeHtml s, ?_, fun sg => rfl,
    ?_⟩
  · simp [renderNode, hnd]
  · simp [attrsString, String.join]

/-- Witness for C10 at concrete inputs containing every special
character. -/
theorem c10_escape_safety_witness :
    (∀ c ∈ (escapeHtml "a<b&c").data,
        c ≠ '<' ∧ c ≠ '>' ∧ c ≠ quoteChar ∧ c ≠ aposChar)
    ∧ entityOk (escapeHtml "a<b&c").data = true
    ∧ renderNode [] (Node.mk "#text" "x&y" none []) "" = escapeHtml "x&y"
    ∧ (∀ sg : Seg, renderSeg sg
        = "<span class=\"diff-" ++ sg.type ++ "\">" ++ escapeHtml sg.content
          ++ "</span>")
    ∧ attrsString (some [("class", "a\"b")])
        = " " ++ "class" ++ "=\"" ++ "a\"b" ++ "\"" :=
  c10_escape_safety "a<b&c" [] "x&y" "" none [] "class" "a\"b" rfl

end JsdiffHtml
